import Mathlib

/-!
Verification of the `cbitmap` fixed-capacity bitmap crate.

The Rust `Bitmap<BYTES>` stores `bits : [u8; BYTES]`.  We embed it as a
structure holding a `List Nat` of its bytes (each byte a natural number;
well-formed maps have every byte `< 256`, captured by the predicate `Wf`
where a proof needs it).  `BYTES` corresponds to `bits.length`.  Panicking
operations are embedded as `Option`-returning functions (`none` = panic).
-/

namespace CBitmap

/-- Source `__idx_get_byte`: `index >> 3`. -/
def idxGetByte (index : Nat) : Nat := index >>> 3

/-- Source `__idx_get_bit`: `index & 0b111`. -/
def idxGetBit (index : Nat) : Nat := index &&& 0b111

/-- Source `__out_bound`: `__idx_get_byte(index) >= bytes`. -/
def outBound (bytes index : Nat) : Bool := decide (idxGetByte index ≥ bytes)

/-- The bitmap: the byte contents of the Rust `bits : [u8; BYTES]` field. -/
structure Bitmap where
  bits : List Nat
deriving Repr, DecidableEq

/-- Well-formedness: every stored byte fits in `u8`. -/
def Wf (m : Bitmap) : Prop := ∀ b ∈ m.bits, b < 256

instance (m : Bitmap) : Decidable (Wf m) := by
  unfold Wf; infer_instance

/-- Source `Bitmap::new`: all bytes zero. -/
def Bitmap.new (bytes : Nat) : Bitmap := ⟨List.replicate bytes 0⟩

/-- Source `Bitmap::bit_len`: `BYTES * 8`. -/
def Bitmap.bitLen (m : Bitmap) : Nat := m.bits.length * 8

/-- Source `Bitmap::byte_len`: `BYTES`. -/
def Bitmap.byteLen (m : Bitmap) : Nat := m.bits.length

/-- Source `Bitmap::__get_bool(byte, bit)`: `self.bits[byte] & (1 << bit) != 0`.
The array indexing panics when `byte >= BYTES`, hence the `Option`. -/
def Bitmap.getBoolInner (m : Bitmap) (byte bit : Nat) : Option Bool :=
  if byte < m.bits.length then
    some ((m.bits.getD byte 0 &&& (1 <<< bit)) != 0)
  else none

/-- Source `Bitmap::__copy_u8(byte)`: `self.bits[byte].clone()`; panics OOB. -/
def Bitmap.copyU8 (m : Bitmap) (byte : Nat) : Option Nat :=
  if byte < m.bits.length then some (m.bits.getD byte 0) else none

/-- Source `Bitmap::get_bool(index)`. -/
def Bitmap.getBool (m : Bitmap) (index : Nat) : Option Bool :=
  m.getBoolInner (idxGetByte index) (idxGetBit index)

/-- Source `Bitmap::get_01(index)`: `match get_bool { true => 1, false => 0 }`. -/
def Bitmap.get01 (m : Bitmap) (index : Nat) : Option Nat :=
  (m.getBool index).map (fun b => match b with | true => 1 | false => 0)

/-- Source `Bitmap::set(index)`: panic when out of bounds, else
`bits[index >> 3] |= 1 << (index & 7)`. -/
def Bitmap.set (m : Bitmap) (index : Nat) : Option Bitmap :=
  if outBound m.bits.length index then none
  else
    let content := 1 <<< idxGetBit index
    let byte := m.bits.getD (idxGetByte index) 0
    some ⟨m.bits.set (idxGetByte index) (byte ||| content)⟩

/-- Source `Bitmap::reset(index)`: panic when out of bounds, else
`bits[index >> 3] &= !(1 << (index & 7))` (u8 complement = xor 255). -/
def Bitmap.reset (m : Bitmap) (index : Nat) : Option Bitmap :=
  if outBound m.bits.length index then none
  else
    let content := 255 ^^^ (1 <<< idxGetBit index)
    let byte := m.bits.getD (idxGetByte index) 0
    some ⟨m.bits.set (idxGetByte index) (byte &&& content)⟩

/-- Source `Bitmap::flip(index)`: panic when out of bounds, else
`bits[index >> 3] ^= 1 << (index & 7)`. -/
def Bitmap.flip (m : Bitmap) (index : Nat) : Option Bitmap :=
  if outBound m.bits.length index then none
  else
    let byte := m.bits.getD (idxGetByte index) 0
    some ⟨m.bits.set (idxGetByte index) (byte ^^^ (1 <<< idxGetBit index))⟩

/-- Source `Bitmap::set_all`: `bits = [255; BYTES]`. -/
def Bitmap.setAll (m : Bitmap) : Bitmap := ⟨List.replicate m.bits.length 255⟩

/-- Source `Bitmap::reset_all`: `bits = [0; BYTES]`. -/
def Bitmap.resetAll (m : Bitmap) : Bitmap := ⟨List.replicate m.bits.length 0⟩

/-- Source `Bitmap::flip_all`: every byte `*i = !*i` (u8 complement = xor 255). -/
def Bitmap.flipAll (m : Bitmap) : Bitmap := ⟨m.bits.map (fun b => b ^^^ 255)⟩

/-- Source `BitRef`: wrapper snapshotting the bit's value (the `_map` borrow
carries no data relevant to the embedding). -/
structure BitRef where
  value : Bool
deriving Repr, DecidableEq

/-- Source `BitRef::new`: panic when out of bounds, else snapshot
`map.__get_bool(byte, bit)`. -/
def BitRef.new (map : Bitmap) (index : Nat) : Option BitRef :=
  if outBound map.bits.length index then none
  else (map.getBoolInner (idxGetByte index) (idxGetBit index)).map (fun v => ⟨v⟩)

/-- Source `Bitmap::at`: delegates to `BitRef::new`. -/
def Bitmap.at (m : Bitmap) (index : Nat) : Option BitRef := BitRef.new m index

/-- Source `BitRefMut`: index, cached value, and the (exclusively borrowed)
map, whose current state we carry explicitly. -/
structure BitRefMut where
  idx : Nat
  value : Bool
  map : Bitmap
deriving Repr, DecidableEq

/-- Source `BitRefMut::new`: panic when out of bounds, else record index,
snapshot value, take the map. -/
def BitRefMut.new (map : Bitmap) (index : Nat) : Option BitRefMut :=
  if outBound map.bits.length index then none
  else (map.getBoolInner (idxGetByte index) (idxGetBit index)).map
    (fun v => ⟨index, v, map⟩)

/-- Source `Bitmap::at_mut`: delegates to `BitRefMut::new`. -/
def Bitmap.atMut (m : Bitmap) (index : Nat) : Option BitRefMut := BitRefMut.new m index

/-- Source `BitRefMut::set`: `*__get_byte() |= 1 << bit; value = true`.
`__get_byte` indexes `map.bits[idx >> 3]`, panicking OOB. -/
def BitRefMut.set (r : BitRefMut) : Option BitRefMut :=
  let mask := 1 <<< idxGetBit r.idx
  if idxGetByte r.idx < r.map.bits.length then
    let byte := r.map.bits.getD (idxGetByte r.idx) 0
    some ⟨r.idx, true, ⟨r.map.bits.set (idxGetByte r.idx) (byte ||| mask)⟩⟩
  else none

/-- Source `BitRefMut::reset`: `*__get_byte() &= !(1 << bit); value = false`. -/
def BitRefMut.reset (r : BitRefMut) : Option BitRefMut :=
  let mask := 255 ^^^ (1 <<< idxGetBit r.idx)
  if idxGetByte r.idx < r.map.bits.length then
    let byte := r.map.bits.getD (idxGetByte r.idx) 0
    some ⟨r.idx, false, ⟨r.map.bits.set (idxGetByte r.idx) (byte &&& mask)⟩⟩
  else none

/-- Source `BitRefMut::flip`: `*__get_byte() ^= 1 << bit; value = !value`. -/
def BitRefMut.flip (r : BitRefMut) : Option BitRefMut :=
  let mask := 1 <<< idxGetBit r.idx
  if idxGetByte r.idx < r.map.bits.length then
    let byte := r.map.bits.getD (idxGetByte r.idx) 0
    some ⟨r.idx, !r.value, ⟨r.map.bits.set (idxGetByte r.idx) (byte ^^^ mask)⟩⟩
  else none

-- Basic facts about index arithmetic.

theorem idxGetByte_eq_div (i : Nat) : idxGetByte i = i / 8 := by
  simp [idxGetByte, Nat.shiftRight_eq_div_pow]

theorem idxGetBit_eq_mod (i : Nat) : idxGetBit i = i % 8 := by
  show i &&& 7 = i % 8
  have h := Nat.and_pow_two_sub_one_eq_mod i 3
  norm_num at h
  exact h

theorem idxGetBit_lt (i : Nat) : idxGetBit i < 8 := by
  rw [idxGetBit_eq_mod]; exact Nat.mod_lt _ (by decide)

theorem outBound_iff (bytes i : Nat) :
    outBound bytes i = true ↔ bytes * 8 ≤ i := by
  rw [outBound, idxGetByte_eq_div, decide_eq_true_iff]
  exact Nat.le_div_iff_mul_le (by decide)

theorem not_outBound_iff (bytes i : Nat) :
    outBound bytes i = false ↔ i < bytes * 8 := by
  rw [← Bool.not_eq_true, outBound_iff]
  omega

theorem not_outBound_byte_lt (bytes i : Nat) (h : outBound bytes i = false) :
    idxGetByte i < bytes := by
  rw [outBound, decide_eq_false_iff_not, Nat.not_le] at h
  exact h

theorem getBool_none_iff (m : Bitmap) (i : Nat) : m.getBool i = none ↔ m.bitLen ≤ i := by
  rw [Bitmap.getBool, Bitmap.getBoolInner, Bitmap.bitLen, idxGetByte_eq_div]
  by_cases h : i / 8 < m.bits.length
  · rw [if_pos h]
    constructor
    · intro hx; exact absurd hx (by simp)
    · intro hx; exact absurd hx (by omega)
  · rw [if_neg h]
    constructor
    · intro _; omega
    · intro _; rfl

theorem get01_none_iff (m : Bitmap) (i : Nat) : m.get01 i = none ↔ m.bitLen ≤ i := by
  rw [Bitmap.get01, Option.map_eq_none']
  exact getBool_none_iff m i

theorem set_none_iff (m : Bitmap) (i : Nat) : m.set i = none ↔ m.bitLen ≤ i := by
  rw [Bitmap.set, Bitmap.bitLen]
  cases h : outBound m.bits.length i
  · have := (not_outBound_iff _ _).1 h
    simp only [h]
    simp only [Bool.false_eq_true, if_false]
    constructor
    · intro hx; exact absurd hx (by simp)
    · intro hx; omega
  · simp only [h, if_true, true_iff]
    exact (outBound_iff _ _).1 h

theorem reset_none_iff (m : Bitmap) (i : Nat) : m.reset i = none ↔ m.bitLen ≤ i := by
  rw [Bitmap.reset, Bitmap.bitLen]
  cases h : outBound m.bits.length i
  · have := (not_outBound_iff _ _).1 h
    simp only [h, Bool.false_eq_true, if_false]
    constructor
    · intro hx; exact absurd hx (by simp)
    · intro hx; omega
  · simp only [h, if_true, true_iff]
    exact (outBound_iff _ _).1 h

theorem flip_none_iff (m : Bitmap) (i : Nat) : m.flip i = none ↔ m.bitLen ≤ i := by
  rw [Bitmap.flip, Bitmap.bitLen]
  cases h : outBound m.bits.length i
  · have := (not_outBound_iff _ _).1 h
    simp only [h, Bool.false_eq_true, if_false]
    constructor
    · intro hx; exact absurd hx (by simp)
    · intro hx; omega
  · simp only [h, if_true, true_iff]
    exact (outBound_iff _ _).1 h

theorem bitRef_new_none_iff (m : Bitmap) (i : Nat) :
    BitRef.new m i = none ↔ m.bitLen ≤ i := by
  rw [BitRef.new, Bitmap.bitLen]
  cases h : outBound m.bits.length i
  · have hlt := not_outBound_byte_lt _ _ h
    have := (not_outBound_iff _ _).1 h
    simp only [h, Bool.false_eq_true, if_false, Bitmap.getBoolInner, if_pos hlt,
      Option.map_some']
    constructor
    · intro hx; exact absurd hx (by simp)
    · intro hx; omega
  · simp only [h, if_true, true_iff]
    exact (outBound_iff _ _).1 h

theorem bitRefMut_new_none_iff (m : Bitmap) (i : Nat) :
    BitRefMut.new m i = none ↔ m.bitLen ≤ i := by
  rw [BitRefMut.new, Bitmap.bitLen]
  cases h : outBound m.bits.length i
  · have hlt := not_outBound_byte_lt _ _ h
    have := (not_outBound_iff _ _).1 h
    simp only [h, Bool.false_eq_true, if_false, Bitmap.getBoolInner, if_pos hlt,
      Option.map_some']
    constructor
    · intro hx; exact absurd hx (by simp)
    · intro hx; omega
  · simp only [h, if_true, true_iff]
    exact (outBound_iff _ _).1 h

/-- Claim C1: for every `Bitmap` and every index, each single-bit accessor and
mutator (`get_bool`, `get_01`, `set`, `reset`, `flip`, `at`, `at_mut`,
`BitRef::new`, `BitRefMut::new`) fails (returns `none`, the embedding of a
panic) exactly when `index >= BYTES*8`, and succeeds for every index with
`index < BYTES*8`. -/
theorem claim1_bounds_enforcement (m : Bitmap) (i : Nat) :
    (m.getBool i = none ↔ m.bitLen ≤ i) ∧
    (m.get01 i = none ↔ m.bitLen ≤ i) ∧
    (m.set i = none ↔ m.bitLen ≤ i) ∧
    (m.reset i = none ↔ m.bitLen ≤ i) ∧
    (m.flip i = none ↔ m.bitLen ≤ i) ∧
    (m.at i = none ↔ m.bitLen ≤ i) ∧
    (m.atMut i = none ↔ m.bitLen ≤ i) ∧
    (BitRef.new m i = none ↔ m.bitLen ≤ i) ∧
    (BitRefMut.new m i = none ↔ m.bitLen ≤ i) :=
  ⟨getBool_none_iff m i, get01_none_iff m i, set_none_iff m i, reset_none_iff m i,
    flip_none_iff m i, bitRef_new_none_iff m i, bitRefMut_new_none_iff m i,
    bitRef_new_none_iff m i, bitRefMut_new_none_iff m i⟩

/-- Source `__copy_bytes::<N, M>(src)`: destination starts all zero;
if `N > M` the whole `M`-byte source lands in the low positions, otherwise
the first `N` source bytes are copied.  Uniformly: take then zero-pad. -/
def copyBytes (n : Nat) (src : List Nat) : List Nat :=
  src.take n ++ List.replicate (n - src.length) 0

/-- Source `From<[u8; N]> for Bitmap<BYTES>`: zero-capacity target yields
`new()`, otherwise the bits are `Some(__copy_bytes(value))`. -/
def Bitmap.fromArray (bytes : Nat) (src : List Nat) : Bitmap :=
  if bytes = 0 then Bitmap.new bytes else ⟨copyBytes bytes src⟩

/-- Source `Into<[u8; BYTES]> for Bitmap<BYTES>`: zero-capacity gives the
empty array, otherwise the stored byte array is returned (`bits.unwrap()`). -/
def Bitmap.intoArray (m : Bitmap) : List Nat :=
  if m.bits.length = 0 then List.replicate m.bits.length 0 else m.bits

/-- Source `BitAnd<[u8; N]> for &Bitmap<BYTES>`: clone `rhs`, AND the first
`min(N, BYTES)` bytes with the map's bytes, zero the rest when `N > BYTES`. -/
def Bitmap.bitand (m : Bitmap) (rhs : List Nat) : List Nat :=
  (List.range rhs.length).map fun i =>
    if i < min rhs.length m.bits.length then rhs.getD i 0 &&& m.bits.getD i 0 else 0

/-- Source `BitAndAssign<[u8; N]> for Bitmap<BYTES>`: AND the first
`min(N, BYTES)` bytes in place, zero the map's remaining bytes when
`BYTES > N`. -/
def Bitmap.bitandAssign (m : Bitmap) (rhs : List Nat) : Bitmap :=
  ⟨(List.range m.bits.length).map fun i =>
    if i < min rhs.length m.bits.length then m.bits.getD i 0 &&& rhs.getD i 0
    else 0⟩

/-- Source `BitOrAssign<[u8; N]> for Bitmap<BYTES>`: OR the first
`min(N, BYTES)` bytes in place; the remaining bytes are not touched. -/
def Bitmap.bitorAssign (m : Bitmap) (rhs : List Nat) : Bitmap :=
  ⟨(List.range m.bits.length).map fun i =>
    if i < min rhs.length m.bits.length then m.bits.getD i 0 ||| rhs.getD i 0
    else m.bits.getD i 0⟩

theorem range_map_getD (n : Nat) (f : Nat → Nat) (i : Nat) (h : i < n) :
    ((List.range n).map f).getD i 0 = f i := by
  simp [List.getD_eq_getElem?_getD, List.getElem?_map, List.getElem?_range, h]

/-- Claim C3: converting a byte array of length exactly `N` to a `Bitmap<N>`
and back yields the original array. -/
theorem claim3_round_trip (n : Nat) (a : List Nat) (h : a.length = n) :
    (Bitmap.fromArray n a).intoArray = a := by
  by_cases hn : n = 0
  · subst hn
    have ha : a = [] := List.length_eq_zero.1 h
    subst ha
    rfl
  · have hcopy : copyBytes n a = a := by
      rw [copyBytes, h.symm, List.take_length, Nat.sub_self]
      simp
    rw [Bitmap.fromArray, if_neg hn, Bitmap.intoArray, hcopy]
    rw [if_neg (by rw [h]; exact hn)]

/-- Witness for C3 at `n = 2`, `a = [3, 5]`. -/
theorem claim3_round_trip_witness :
    (Bitmap.fromArray 2 [3, 5]).intoArray = [3, 5] :=
  claim3_round_trip 2 [3, 5] (by decide)

/-- Claim C4: `&m & rhs` (non-mutating: the embedding takes `m` by value and
returns a fresh array) has length `M = rhs.length`; byte `i` of the result is
`rhs[i] AND m[i]` for `i < min(N, M)` and `0` for `min(N, M) <= i < M`. -/
theorem claim4_bitand (m : Bitmap) (rhs : List Nat) :
    (m.bitand rhs).length = rhs.length ∧
    (∀ i, i < min rhs.length m.bits.length →
      (m.bitand rhs).getD i 0 = rhs.getD i 0 &&& m.bits.getD i 0) ∧
    (∀ i, min rhs.length m.bits.length ≤ i → i < rhs.length →
      (m.bitand rhs).getD i 0 = 0) := by
  refine ⟨by simp [Bitmap.bitand], ?_, ?_⟩
  · intro i hi
    rw [Bitmap.bitand, range_map_getD _ _ _ (lt_of_lt_of_le hi (min_le_left _ _)),
      if_pos hi]
  · intro i hge hlt
    rw [Bitmap.bitand, range_map_getD _ _ _ hlt, if_neg (by omega)]

/-- Witness for C4: map `[12]`, operand `[10, 7]` (`min(N, M) = 1`). -/
theorem claim4_bitand_witness :
    (Bitmap.bitand ⟨[12]⟩ [10, 7]).getD 0 0 = 10 &&& 12 ∧
    (Bitmap.bitand ⟨[12]⟩ [10, 7]).getD 1 0 = 0 :=
  ⟨(claim4_bitand ⟨[12]⟩ [10, 7]).2.1 0 (by decide),
   (claim4_bitand ⟨[12]⟩ [10, 7]).2.2 1 (by decide) (by decide)⟩

/-- Claim C5: after `m &= rhs`, byte `i` of `m` equals its old value AND
`rhs[i]` for `i < min(N, M)`, and every byte at index `>= M` is zero when
`N > M` (so for all `min(N, M) <= i < N` the byte is zero). -/
theorem claim5_bitand_assign (m : Bitmap) (rhs : List Nat) :
    (m.bitandAssign rhs).bits.length = m.bits.length ∧
    (∀ i, i < min rhs.length m.bits.length →
      (m.bitandAssign rhs).bits.getD i 0 = m.bits.getD i 0 &&& rhs.getD i 0) ∧
    (∀ i, min rhs.length m.bits.length ≤ i → i < m.bits.length →
      (m.bitandAssign rhs).bits.getD i 0 = 0) := by
  refine ⟨by simp [Bitmap.bitandAssign], ?_, ?_⟩
  · intro i hi
    rw [Bitmap.bitandAssign]
    rw [range_map_getD _ _ _ (lt_of_lt_of_le hi (min_le_right _ _)), if_pos hi]
  · intro i hge hlt
    rw [Bitmap.bitandAssign]
    rw [range_map_getD _ _ _ hlt, if_neg (by omega)]

/-- Witness for C5: map `[12, 9]`, operand `[10]` (`N = 2 > M = 1`). -/
theorem claim5_bitand_assign_witness :
    (Bitmap.bitandAssign ⟨[12, 9]⟩ [10]).bits.getD 0 0 = 12 &&& 10 ∧
    (Bitmap.bitandAssign ⟨[12, 9]⟩ [10]).bits.getD 1 0 = 0 :=
  ⟨(claim5_bitand_assign ⟨[12, 9]⟩ [10]).2.1 0 (by decide),
   (claim5_bitand_assign ⟨[12, 9]⟩ [10]).2.2 1 (by decide) (by decide)⟩

/-- Claim C6: after `m |= rhs`, byte `i` of `m` equals its old value OR
`rhs[i]` for `i < min(N, M)`, and every byte at index `>= min(N, M)` is
unchanged. -/
theorem claim6_bitor_assign (m : Bitmap) (rhs : List Nat) :
    (m.bitorAssign rhs).bits.length = m.bits.length ∧
    (∀ i, i < min rhs.length m.bits.length →
      (m.bitorAssign rhs).bits.getD i 0 = m.bits.getD i 0 ||| rhs.getD i 0) ∧
    (∀ i, min rhs.length m.bits.length ≤ i → i < m.bits.length →
      (m.bitorAssign rhs).bits.getD i 0 = m.bits.getD i 0) := by
  refine ⟨by simp [Bitmap.bitorAssign], ?_, ?_⟩
  · intro i hi
    rw [Bitmap.bitorAssign]
    rw [range_map_getD _ _ _ (lt_of_lt_of_le hi (min_le_right _ _)), if_pos hi]
  · intro i hge hlt
    rw [Bitmap.bitorAssign]
    rw [range_map_getD _ _ _ hlt, if_neg (by omega)]

/-- Witness for C6: map `[12, 9]`, operand `[10]` (`min(N, M) = 1`). -/
theorem claim6_bitor_assign_witness :
    (Bitmap.bitorAssign ⟨[12, 9]⟩ [10]).bits.getD 0 0 = 12 ||| 10 ∧
    (Bitmap.bitorAssign ⟨[12, 9]⟩ [10]).bits.getD 1 0 = 9 :=
  ⟨(claim6_bitor_assign ⟨[12, 9]⟩ [10]).2.1 0 (by decide),
   (claim6_bitor_assign ⟨[12, 9]⟩ [10]).2.2 1 (by decide) (by decide)⟩

theorem getD_set_self (l : List Nat) (k v : Nat) (h : k < l.length) :
    (l.set k v).getD k 0 = v := by
  rw [List.getD_eq_getElem?_getD, List.getElem?_set_self h]
  rfl

theorem getD_set_ne (l : List Nat) (k j v : Nat) (h : k ≠ j) :
    (l.set k v).getD j 0 = l.getD j 0 := by
  rw [List.getD_eq_getElem?_getD, List.getElem?_set_ne h,
    ← List.getD_eq_getElem?_getD]

theorem set_getD_self (l : List Nat) (k : Nat) (h : k < l.length) :
    l.set k (l.getD k 0) = l := by
  apply List.ext_getElem?
  intro n
  by_cases hn : k = n
  · subst hn
    rw [List.getElem?_set_self h, List.getD_eq_getElem?_getD,
      List.getElem?_eq_getElem h]
    rfl
  · exact List.getElem?_set_ne hn

theorem land_mask_ne_zero (x k : Nat) :
    ((x &&& (1 <<< k)) != 0) = x.testBit k := by
  rw [Nat.one_shiftLeft, Nat.and_two_pow]
  cases h : x.testBit k <;> simp [h]

/-- Claim C8: `flip(i)` twice restores the whole map (hence bit `i`), and
`flip_all()` twice restores the whole map. -/
theorem claim8_flip_involution (m : Bitmap) (i : Nat) (h : i < m.bitLen) :
    (m.flip i).bind (fun m2 => m2.flip i) = some m ∧
    m.flipAll.flipAll = m := by
  obtain ⟨l⟩ := m
  have hlen8 : i < l.length * 8 := by simpa [Bitmap.bitLen] using h
  have hob : outBound l.length i = false := (not_outBound_iff _ _).2 hlen8
  have hk : idxGetByte i < l.length := not_outBound_byte_lt _ _ hob
  constructor
  · rw [Bitmap.flip]
    simp only [hob, Bool.false_eq_true, if_false]
    show Bitmap.flip
      ⟨l.set (idxGetByte i) (l.getD (idxGetByte i) 0 ^^^ (1 <<< idxGetBit i))⟩ i
      = some ⟨l⟩
    rw [Bitmap.flip]
    have hlen2 :
        (l.set (idxGetByte i)
          (l.getD (idxGetByte i) 0 ^^^ (1 <<< idxGetBit i))).length
          = l.length := List.length_set l _ _
    simp only [hlen2, hob, Bool.false_eq_true, if_false]
    rw [getD_set_self _ _ _ hk, Nat.xor_assoc, Nat.xor_self, Nat.xor_zero,
      List.set_set, set_getD_self _ _ hk]
  · show Bitmap.flipAll (Bitmap.flipAll ⟨l⟩) = ⟨l⟩
    simp only [Bitmap.flipAll, List.map_map]
    congr 1
    have hcomp : ((fun b => b ^^^ 255) ∘ fun b : Nat => b ^^^ 255) = id := by
      funext b
      simp [Function.comp, Nat.xor_assoc]
    rw [hcomp, List.map_id]

/-- Witness for C8 at the map `[5]`, index 2. -/
theorem claim8_flip_involution_witness :
    ((Bitmap.flip ⟨[5]⟩ 2).bind (fun m2 => m2.flip 2) = some ⟨[5]⟩) ∧
    (Bitmap.flipAll (Bitmap.flipAll ⟨[5]⟩) = ⟨[5]⟩) :=
  claim8_flip_involution ⟨[5]⟩ 2 (by decide)

theorem or_mask_frame (b bi bj : Nat) (h : bi ≠ bj) :
    (((b ||| (1 <<< bi)) &&& (1 <<< bj)) != 0) = ((b &&& (1 <<< bj)) != 0) := by
  rw [land_mask_ne_zero, land_mask_ne_zero]
  simp [Nat.testBit_or, Nat.one_shiftLeft, Nat.testBit_two_pow, h]

theorem testBit_255 (k : Nat) (h : k < 8) : Nat.testBit 255 k = true := by
  interval_cases k <;> decide

theorem and_mask_frame (b bi bj : Nat) (h : bi ≠ bj) (hbj : bj < 8) :
    (((b &&& (255 ^^^ (1 <<< bi))) &&& (1 <<< bj)) != 0)
      = ((b &&& (1 <<< bj)) != 0) := by
  rw [land_mask_ne_zero, land_mask_ne_zero]
  simp [Nat.testBit_and, Nat.testBit_xor, Nat.one_shiftLeft,
    Nat.testBit_two_pow, h, testBit_255 bj hbj]

theorem xor_mask_frame (b bi bj : Nat) (h : bi ≠ bj) :
    (((b ^^^ (1 <<< bi)) &&& (1 <<< bj)) != 0) = ((b &&& (1 <<< bj)) != 0) := by
  rw [land_mask_ne_zero, land_mask_ne_zero]
  simp [Nat.testBit_xor, Nat.one_shiftLeft, Nat.testBit_two_pow, h]

theorem getBool_of_lt (l : List Nat) (j : Nat) (h : idxGetByte j < l.length) :
    Bitmap.getBool ⟨l⟩ j
      = some ((l.getD (idxGetByte j) 0 &&& (1 <<< idxGetBit j)) != 0) := by
  rw [Bitmap.getBool, Bitmap.getBoolInner, if_pos h]

/-- Claim C9: for in-range indices `j ≠ i`, each of `set(i)`, `reset(i)` and
`flip(i)` leaves the value of bit `j` unchanged. -/
theorem claim9_single_bit_frame (m : Bitmap) (i j : Nat) (hi : i < m.bitLen)
    (hj : j < m.bitLen) (hij : j ≠ i) :
    ((m.set i).bind fun m2 => m2.getBool j) = m.getBool j ∧
    ((m.reset i).bind fun m2 => m2.getBool j) = m.getBool j ∧
    ((m.flip i).bind fun m2 => m2.getBool j) = m.getBool j := by
  obtain ⟨l⟩ := m
  have hi8 : i < l.length * 8 := by simpa [Bitmap.bitLen] using hi
  have hj8 : j < l.length * 8 := by simpa [Bitmap.bitLen] using hj
  have hobi : outBound l.length i = false := (not_outBound_iff _ _).2 hi8
  have hki : idxGetByte i < l.length := not_outBound_byte_lt _ _ hobi
  have hkj : idxGetByte j < l.length := by
    rw [idxGetByte_eq_div]
    omega
  have key : ∀ v : Nat,
      Bitmap.getBool ⟨l.set (idxGetByte i) v⟩ j
        = some (((l.set (idxGetByte i) v).getD (idxGetByte j) 0
            &&& (1 <<< idxGetBit j)) != 0) := by
    intro v
    apply getBool_of_lt
    rw [List.length_set]
    exact hkj
  have base := getBool_of_lt l j hkj
  by_cases hbyte : idxGetByte i = idxGetByte j
  · have hbit : idxGetBit i ≠ idxGetBit j := by
      rw [idxGetByte_eq_div, idxGetByte_eq_div] at hbyte
      rw [idxGetBit_eq_mod, idxGetBit_eq_mod]
      omega
    refine ⟨?_, ?_, ?_⟩
    · rw [Bitmap.set]
      simp only [hobi, Bool.false_eq_true, if_false, Option.some_bind]
      rw [key, base, hbyte, getD_set_self _ _ _ hkj,
        or_mask_frame _ _ _ hbit]
    · rw [Bitmap.reset]
      simp only [hobi, Bool.false_eq_true, if_false, Option.some_bind]
      rw [key, base, hbyte, getD_set_self _ _ _ hkj,
        and_mask_frame _ _ _ hbit (idxGetBit_lt j)]
    · rw [Bitmap.flip]
      simp only [hobi, Bool.false_eq_true, if_false, Option.some_bind]
      rw [key, base, hbyte, getD_set_self _ _ _ hkj,
        xor_mask_frame _ _ _ hbit]
  · refine ⟨?_, ?_, ?_⟩
    · rw [Bitmap.set]
      simp only [hobi, Bool.false_eq_true, if_false, Option.some_bind]
      rw [key, base, getD_set_ne _ _ _ _ hbyte]
    · rw [Bitmap.reset]
      simp only [hobi, Bool.false_eq_true, if_false, Option.some_bind]
      rw [key, base, getD_set_ne _ _ _ _ hbyte]
    · rw [Bitmap.flip]
      simp only [hobi, Bool.false_eq_true, if_false, Option.some_bind]
      rw [key, base, getD_set_ne _ _ _ _ hbyte]

/-- Witness for C9 at the map `[5, 9]`, indices `i = 3`, `j = 10`. -/
theorem claim9_single_bit_frame_witness :
    ((Bitmap.set ⟨[5, 9]⟩ 3).bind fun m2 => m2.getBool 10)
      = Bitmap.getBool ⟨[5, 9]⟩ 10 ∧
    ((Bitmap.reset ⟨[5, 9]⟩ 3).bind fun m2 => m2.getBool 10)
      = Bitmap.getBool ⟨[5, 9]⟩ 10 ∧
    ((Bitmap.flip ⟨[5, 9]⟩ 3).bind fun m2 => m2.getBool 10)
      = Bitmap.getBool ⟨[5, 9]⟩ 10 :=
  claim9_single_bit_frame ⟨[5, 9]⟩ 3 10 (by decide) (by decide) (by decide)

/-- The three mutating operations a `BitRefMut` exposes. -/
inductive BitOp where
  | set
  | reset
  | flip
deriving Repr, DecidableEq

/-- Dispatch one `BitRefMut` operation. -/
def applyOp (r : BitRefMut) : BitOp → Option BitRefMut
  | BitOp.set => r.set
  | BitOp.reset => r.reset
  | BitOp.flip => r.flip

/-- Run a sequence of `BitRefMut` operations (a panic anywhere gives `none`). -/
def runOps : BitRefMut → List BitOp → Option BitRefMut
  | r, [] => some r
  | r, op :: rest => (applyOp r op).bind fun r2 => runOps r2 rest

theorem or_mask_self (b k : Nat) :
    (((b ||| (1 <<< k)) &&& (1 <<< k)) != 0) = true := by
  rw [land_mask_ne_zero]
  simp [Nat.testBit_or, Nat.one_shiftLeft, Nat.testBit_two_pow]

theorem and_mask_self (b k : Nat) (hk : k < 8) :
    (((b &&& (255 ^^^ (1 <<< k))) &&& (1 <<< k)) != 0) = false := by
  rw [land_mask_ne_zero]
  simp [Nat.testBit_and, Nat.testBit_xor, Nat.one_shiftLeft,
    Nat.testBit_two_pow, testBit_255 k hk]

theorem xor_mask_self (b k : Nat) :
    (((b ^^^ (1 <<< k)) &&& (1 <<< k)) != 0) = !((b &&& (1 <<< k)) != 0) := by
  rw [land_mask_ne_zero, land_mask_ne_zero]
  simp [Nat.testBit_xor, Nat.one_shiftLeft, Nat.testBit_two_pow]

theorem bitRefMut_new_inv (m : Bitmap) (i : Nat) (r : BitRefMut)
    (h : BitRefMut.new m i = some r) : r.map.getBool r.idx = some r.value := by
  rw [BitRefMut.new] at h
  cases hob : outBound m.bits.length i
  · have hk := not_outBound_byte_lt _ _ hob
    simp only [hob, Bool.false_eq_true, if_false, Bitmap.getBoolInner,
      if_pos hk, Option.map_some'] at h
    injection h with h2
    subst h2
    exact getBool_of_lt m.bits i hk
  · simp only [hob, if_true] at h
    exact absurd h (by simp)

theorem applyOp_inv (r r2 : BitRefMut) (op : BitOp)
    (hr : r.map.getBool r.idx = some r.value)
    (h : applyOp r op = some r2) : r2.map.getBool r2.idx = some r2.value := by
  obtain ⟨idx, value, ⟨l⟩⟩ := r
  cases op
  case set =>
    simp only [applyOp, BitRefMut.set] at h
    by_cases hk : idxGetByte idx < l.length
    · rw [if_pos hk] at h
      injection h with h2
      subst h2
      rw [getBool_of_lt _ _ (by rw [List.length_set]; exact hk)]
      rw [getD_set_self _ _ _ hk, or_mask_self]
    · rw [if_neg hk] at h
      exact absurd h (by simp)
  case reset =>
    simp only [applyOp, BitRefMut.reset] at h
    by_cases hk : idxGetByte idx < l.length
    · rw [if_pos hk] at h
      injection h with h2
      subst h2
      rw [getBool_of_lt _ _ (by rw [List.length_set]; exact hk)]
      rw [getD_set_self _ _ _ hk, and_mask_self _ _ (idxGetBit_lt idx)]
    · rw [if_neg hk] at h
      exact absurd h (by simp)
  case flip =>
    simp only [applyOp, BitRefMut.flip] at h
    by_cases hk : idxGetByte idx < l.length
    · rw [if_pos hk] at h
      injection h with h2
      subst h2
      rw [getBool_of_lt _ _ hk] at hr
      injection hr with hr2
      rw [getBool_of_lt _ _ (by rw [List.length_set]; exact hk)]
      rw [getD_set_self _ _ _ hk, xor_mask_self, hr2]
    · rw [if_neg hk] at h
      exact absurd h (by simp)

theorem runOps_inv (ops : List BitOp) : ∀ r r2 : BitRefMut,
    r.map.getBool r.idx = some r.value → runOps r ops = some r2 →
    r2.map.getBool r2.idx = some r2.value := by
  induction ops with
  | nil =>
    intro r r2 hr h
    simp only [runOps] at h
    injection h with h2
    subst h2
    exact hr
  | cons op rest ih =>
    intro r r2 hr h
    simp only [runOps] at h
    cases ha : applyOp r op with
    | none => rw [ha] at h; exact absurd h (by simp)
    | some rmid =>
      rw [ha, Option.some_bind] at h
      exact ih rmid r2 (applyOp_inv r rmid op hr ha) h

/-- Claim C10: for a `BitRefMut` created at an in-range index, after
construction and after every sequence of `set`/`reset`/`flip` calls, the
cached boolean exposed by `Deref` equals the stored bit at the recorded
index of the underlying map. -/
theorem claim10_cache_coherence (m : Bitmap) (i : Nat) (r0 r : BitRefMut)
    (ops : List BitOp) (h0 : BitRefMut.new m i = some r0)
    (h : runOps r0 ops = some r) : r.map.getBool r.idx = some r.value :=
  runOps_inv ops r0 r (bitRefMut_new_inv m i r0 h0) h

/-- Witness for C10: map `[0]`, index 1, one `set()` call. -/
theorem claim10_cache_coherence_witness :
    Bitmap.getBool ⟨[2]⟩ 1 = some true :=
  claim10_cache_coherence ⟨[0]⟩ 1 ⟨1, false, ⟨[0]⟩⟩ ⟨1, true, ⟨[2]⟩⟩
    [BitOp.set] (by decide) (by decide)

/-- The `{:08b}` rendering of one byte: 8 binary digits, most significant
first. -/
def byteBinString (b : Nat) : String :=
  String.mk (((List.range 8).reverse).map fun k => if b.testBit k then '1' else '0')

/-- `self.get_01(i).to_string()`: the one-character string of the bit, or a
panic (`none`) out of bounds. -/
def get01String (m : Bitmap) (i : Nat) : Option String :=
  (m.get01 i).map (fun n => toString n)

/-- First loop of `range_to_string`: while the scan position `i` is in a
byte strictly above `start`'s byte, emit a whole aligned byte (at bit
offset 7) or a single bit, with a space at each byte boundary. Returns the
accumulated text and the final scan position. -/
def rangeLoop1 (m : Bitmap) (s : Nat) (i : Nat) : Option (String × Nat) :=
  if h : idxGetByte s < idxGetByte i then
    if idxGetBit i = 7 then
      (m.copyU8 (idxGetByte i)).bind fun b =>
        (rangeLoop1 m s (i - 8)).map fun r => (byteBinString b ++ " " ++ r.1, r.2)
    else
      (get01String m i).bind fun c =>
        (rangeLoop1 m s (i - 1)).map fun r =>
          (c ++ (if idxGetBit i = 0 then " " else "") ++ r.1, r.2)
  else some ("", i)
termination_by i
decreasing_by
  · rw [idxGetByte_eq_div, idxGetByte_eq_div] at h
    omega
  · rw [idxGetByte_eq_div, idxGetByte_eq_div] at h
    omega

/-- Second loop of `range_to_string`: emit single bits from `i` down to
just above `start`. -/
def rangeLoop2 (m : Bitmap) (s : Nat) (i : Nat) : Option (String × Nat) :=
  if s < i then
    (get01String m i).bind fun c =>
      (rangeLoop2 m s (i - 1)).map fun r => (c ++ r.1, r.2)
  else some ("", i)
termination_by i

/-- Source `Bitmap::range_to_string(start, end)`: `None` on the guard
`start >= end || out_bound(start) || out_bound(end - 1)`, otherwise the two
scanning loops followed by the final bit at the resting position. -/
def Bitmap.rangeToString (m : Bitmap) (s e : Nat) : Option String :=
  if decide (s ≥ e) || outBound m.bits.length s || outBound m.bits.length (e - 1)
  then none
  else
    (rangeLoop1 m s (e - 1)).bind fun p1 =>
      (rangeLoop2 m s p1.2).bind fun p2 =>
        (get01String m p2.2).map fun c => p1.1 ++ p2.1 ++ c

theorem idxGetByte_mono {a b : Nat} (h : a ≤ b) : idxGetByte a ≤ idxGetByte b := by
  rw [idxGetByte_eq_div, idxGetByte_eq_div]
  exact Nat.div_le_div_right h

theorem get01String_isSome (m : Bitmap) (i : Nat)
    (h : idxGetByte i < m.bits.length) : ∃ c, get01String m i = some c :=
  ⟨_, by rw [get01String, Bitmap.get01, Bitmap.getBool, Bitmap.getBoolInner,
    if_pos h, Option.map_some', Option.map_some']⟩

theorem rangeLoop1_some (m : Bitmap) (s : Nat) :
    ∀ i, idxGetByte i < m.bits.length →
    ∃ p : String × Nat, rangeLoop1 m s i = some p ∧ p.2 ≤ i := by
  intro i
  induction i using Nat.strongRecOn with
  | ind i ih =>
    intro h
    rw [rangeLoop1]
    by_cases hg : idxGetByte s < idxGetByte i
    · have hi8 : 8 ≤ i := by
        have hg2 := hg
        rw [idxGetByte_eq_div, idxGetByte_eq_div] at hg2
        omega
      rw [dif_pos hg]
      by_cases hb : idxGetBit i = 7
      · rw [if_pos hb, Bitmap.copyU8, if_pos h, Option.some_bind]
        obtain ⟨p, hp, hle⟩ := ih (i - 8) (by omega)
          (lt_of_le_of_lt (idxGetByte_mono (by omega)) h)
        rw [hp, Option.map_some']
        exact ⟨_, rfl, by simp; omega⟩
      · rw [if_neg hb]
        obtain ⟨c, hc⟩ := get01String_isSome m i h
        rw [hc, Option.some_bind]
        obtain ⟨p, hp, hle⟩ := ih (i - 1) (by omega)
          (lt_of_le_of_lt (idxGetByte_mono (by omega)) h)
        rw [hp, Option.map_some']
        exact ⟨_, rfl, by simp; omega⟩
    · rw [dif_neg hg]
      exact ⟨("", i), rfl, Nat.le_refl i⟩

theorem rangeLoop2_some (m : Bitmap) (s : Nat) :
    ∀ i, idxGetByte i < m.bits.length →
    ∃ p : String × Nat, rangeLoop2 m s i = some p ∧ p.2 ≤ i := by
  intro i
  induction i using Nat.strongRecOn with
  | ind i ih =>
    intro h
    rw [rangeLoop2]
    by_cases hg : s < i
    · rw [if_pos hg]
      obtain ⟨c, hc⟩ := get01String_isSome m i h
      rw [hc, Option.some_bind]
      obtain ⟨p, hp, hle⟩ := ih (i - 1) (by omega)
        (lt_of_le_of_lt (idxGetByte_mono (by omega)) h)
      rw [hp, Option.map_some']
      exact ⟨_, rfl, by simp; omega⟩
    · rw [if_neg hg]
      exact ⟨("", i), rfl, Nat.le_refl i⟩

/-- Claim C7: `range_to_string(start, end)` returns `none` if and only if
`start >= end`, or `start >> 3 >= N`, or `(end-1) >> 3 >= N`; in all other
cases it returns `some` string. -/
theorem claim7_range_to_string_none_iff (m : Bitmap) (s e : Nat) :
    m.rangeToString s e = none ↔
      (s ≥ e ∨ idxGetByte s ≥ m.bits.length ∨
        idxGetByte (e - 1) ≥ m.bits.length) := by
  rw [Bitmap.rangeToString]
  cases hgg : (decide (s ≥ e) || outBound m.bits.length s
      || outBound m.bits.length (e - 1))
  · simp only [hgg, Bool.false_eq_true, if_false]
    have hgg2 := hgg
    simp only [Bool.or_eq_false_iff, decide_eq_false_iff_not] at hgg2
    obtain ⟨⟨hse, hs⟩, he⟩ := hgg2
    have hbs := not_outBound_byte_lt _ _ hs
    have hbe := not_outBound_byte_lt _ _ he
    obtain ⟨p1, hp1, hle1⟩ := rangeLoop1_some m s (e - 1) hbe
    rw [hp1, Option.some_bind]
    obtain ⟨p2, hp2, hle2⟩ := rangeLoop2_some m s p1.2
      (lt_of_le_of_lt (idxGetByte_mono hle1) hbe)
    rw [hp2, Option.some_bind]
    obtain ⟨c, hc⟩ := get01String_isSome m p2.2
      (lt_of_le_of_lt (idxGetByte_mono (Nat.le_trans hle2 hle1)) hbe)
    rw [hc, Option.map_some']
    constructor
    · intro hx
      exact absurd hx (by simp)
    · intro hx
      rcases hx with hx | hx | hx
      · exact absurd hx hse
      · omega
      · omega
  · simp only [hgg, if_true]
    have hgg2 := hgg
    simp only [Bool.or_eq_true, decide_eq_true_eq, outBound] at hgg2
    exact iff_of_true trivial (by tauto)

/-- Modelled from the spec: the fixed lookup taking the isolated
lowest-set-bit value (a power of two 1,2,4,...,128) to its bit position
0..7; the `find_first_one` implementation itself (the `BitsManage` trait
impl) is not among the provided sources. -/
def lowbitPos (x : Nat) : Nat :=
  if x = 1 then 0 else if x = 2 then 1 else if x = 4 then 2
  else if x = 8 then 3 else if x = 16 then 4 else if x = 32 then 5
  else if x = 64 then 6 else if x = 128 then 7 else 0

/-- Modelled from the spec: scan bytes in increasing order; within the
first nonzero byte isolate the lowest set bit via `byte & (-byte)` (on u8
the two's complement of a nonzero `b` is `256 - b`) and map it to its
position; if no byte is nonzero, return none. -/
def findFirstOneAux : List Nat → Option Nat
  | [] => none
  | b :: rest =>
    if b ≠ 0 then some (lowbitPos (b &&& (256 - b)))
    else (findFirstOneAux rest).map (· + 8)

/-- Modelled from the spec: `Bitmap::find_first_one()`; the implementation
is absent from the provided sources (only tests and callers reference it). -/
def Bitmap.findFirstOne (m : Bitmap) : Option Nat := findFirstOneAux m.bits

set_option maxRecDepth 4096 in
theorem lowbit_correct : ∀ b : Nat, b < 256 → b ≠ 0 →
    (Nat.testBit b (lowbitPos (b &&& (256 - b))) = true ∧
     lowbitPos (b &&& (256 - b)) < 8 ∧
     ∀ k, k < lowbitPos (b &&& (256 - b)) → Nat.testBit b k = false) := by
  decide

set_option maxRecDepth 4096 in
theorem byte_zero_iff : ∀ b : Nat, b < 256 →
    ((∀ k, k < 8 → Nat.testBit b k = false) ↔ b = 0) := by
  decide

theorem getBool_eq_testBit (l : List Nat) (i : Nat) (h : i / 8 < l.length) :
    Bitmap.getBool ⟨l⟩ i = some (Nat.testBit (l.getD (i / 8) 0) (i % 8)) := by
  rw [getBool_of_lt l i (by rw [idxGetByte_eq_div]; exact h)]
  rw [land_mask_ne_zero, idxGetByte_eq_div, idxGetBit_eq_mod]

theorem findFirstOneAux_correct :
    ∀ l : List Nat, (∀ b ∈ l, b < 256) →
      ((findFirstOneAux l = none ↔ ∀ n ∈ l, n = 0) ∧
       (∀ i, findFirstOneAux l = some i →
          i < l.length * 8 ∧
          Nat.testBit (l.getD (i / 8) 0) (i % 8) = true ∧
          ∀ j, j < i → Nat.testBit (l.getD (j / 8) 0) (j % 8) = false)) := by
  intro l
  induction l with
  | nil =>
    intro _
    constructor
    · simp [findFirstOneAux]
    · intro i hi
      simp [findFirstOneAux] at hi
  | cons b rest ih =>
    intro hwf
    have hb : b < 256 := hwf b (List.mem_cons_self b rest)
    have hrest : ∀ x ∈ rest, x < 256 := fun x hx => hwf x (List.mem_cons_of_mem b hx)
    obtain ⟨ihnone, ihsome⟩ := ih hrest
    by_cases hb0 : b = 0
    · subst hb0
      have heq : findFirstOneAux (0 :: rest) = (findFirstOneAux rest).map (· + 8) := by
        simp [findFirstOneAux]
      constructor
      · rw [heq, Option.map_eq_none', ihnone]
        constructor
        · intro hall n hn
          rcases List.mem_cons.1 hn with h1 | h1
          · exact h1
          · exact hall n h1
        · intro hall n hn
          exact hall n (List.mem_cons_of_mem _ hn)
      · intro i hi
        rw [heq] at hi
        rcases Option.map_eq_some'.1 hi with ⟨j, hj, rfl⟩
        obtain ⟨hlt, htrue, hfalse⟩ := ihsome j hj
        refine ⟨by simp only [List.length_cons]; omega, ?_, ?_⟩
        · have h8 : (j + 8) / 8 = j / 8 + 1 := by omega
          have h8m : (j + 8) % 8 = j % 8 := by omega
          rw [h8, h8m, List.getD_cons_succ]
          exact htrue
        · intro k hk
          by_cases hk8 : k < 8
          · have hz : k / 8 = 0 := by omega
            rw [hz, List.getD_cons_zero]
            exact Nat.zero_testBit _
          · have h8 : k / 8 = (k - 8) / 8 + 1 := by omega
            have h8m : k % 8 = (k - 8) % 8 := by omega
            rw [h8, h8m, List.getD_cons_succ]
            exact hfalse (k - 8) (by omega)
    · have heq : findFirstOneAux (b :: rest)
          = some (lowbitPos (b &&& (256 - b))) := by
        simp [findFirstOneAux, hb0]
      obtain ⟨htb, hlt8, hleast⟩ := lowbit_correct b hb hb0
      constructor
      · rw [heq]
        constructor
        · intro hx
          exact absurd hx (by simp)
        · intro hall
          exact absurd (hall b (List.mem_cons_self b rest)) hb0
      · intro i hi
        rw [heq] at hi
        injection hi with hi2
        subst hi2
        refine ⟨by simp only [List.length_cons]; omega, ?_, ?_⟩
        · have hz : lowbitPos (b &&& (256 - b)) / 8 = 0 := by omega
          have hm : lowbitPos (b &&& (256 - b)) % 8
              = lowbitPos (b &&& (256 - b)) := by omega
          rw [hz, hm, List.getD_cons_zero]
          exact htb
        · intro k hk
          have hz : k / 8 = 0 := by omega
          have hm : k % 8 = k := by omega
          rw [hz, hm, List.getD_cons_zero]
          exact hleast k hk

/-- Claim C2 (spec-modelled: the `find_first_one` implementation is absent
from the provided sources): `find_first_one()` returns `some i` only when
bit `i` is true and every lower-indexed bit is false, and returns `none`
exactly when every bit of the map is zero (in particular on a
zero-capacity map). -/
theorem claim2_find_first_one (m : Bitmap) (hwf : Wf m) :
    (∀ i, m.findFirstOne = some i →
        m.getBool i = some true ∧ ∀ j, j < i → m.getBool j = some false) ∧
    (m.findFirstOne = none ↔ ∀ i, i < m.bitLen → m.getBool i = some false) := by
  obtain ⟨l⟩ := m
  have hwf2 : ∀ b ∈ l, b < 256 := hwf
  obtain ⟨hnone, hsome⟩ := findFirstOneAux_correct l hwf2
  constructor
  · intro i hi
    obtain ⟨hlt, htrue, hfalse⟩ := hsome i hi
    constructor
    · rw [getBool_eq_testBit l i (by omega), htrue]
    · intro j hj
      rw [getBool_eq_testBit l j (by omega), hfalse j hj]
  · show findFirstOneAux l = none ↔ _
    rw [hnone]
    simp only [Bitmap.bitLen]
    constructor
    · intro hall i hilt
      have hd : i / 8 < l.length := by omega
      rw [getBool_eq_testBit l i hd]
      have hz : l.getD (i / 8) 0 = 0 := by
        have hmem : l.getD (i / 8) 0 ∈ l := by
          rw [List.getD_eq_getElem?_getD, List.getElem?_eq_getElem hd]
          exact List.getElem_mem hd
        exact hall _ hmem
      rw [hz, Nat.zero_testBit]
    · intro hall n hn
      obtain ⟨k, hk, rfl⟩ := List.getElem_of_mem hn
      have hwfk : l[k] < 256 := hwf2 _ (List.getElem_mem hk)
      apply (byte_zero_iff l[k] hwfk).1
      intro t ht
      have hbit := hall (k * 8 + t) (by omega)
      rw [getBool_eq_testBit l (k * 8 + t) (by omega)] at hbit
      injection hbit with hbit2
      have hdiv : (k * 8 + t) / 8 = k := by omega
      have hmod : (k * 8 + t) % 8 = t := by omega
      rw [hdiv, hmod] at hbit2
      rw [List.getD_eq_getElem?_getD, List.getElem?_eq_getElem hk] at hbit2
      exact hbit2

/-- Witness for C2 at the map `[0, 4]` (first set bit at index 10). -/
theorem claim2_find_first_one_witness :
    Bitmap.getBool ⟨[0, 4]⟩ 10 = some true :=
  ((claim2_find_first_one ⟨[0, 4]⟩ (by decide)).1 10 (by decide)).1

end CBitmap
